import Mathlib

/-!
Verification development for the live data dashboard component
(`src/src/App.js`): the dot-path value extractor (`getValueFromPath`),
the bounded time-series buffer maintained by `fetchData` through
`slice(-maxDataPoints)`, the numeric coercion building a data point,
the error handling of a poll step, the `stats` aggregate, the
`clearData` action, the configuration actions (`loadExample`,
direct URL/path field edits), and the `useEffect` timer lifecycle.

JavaScript numbers (IEEE-754 doubles) are modelled by rationals `ℚ`;
the model therefore has no NaN or infinities.  JSON values obtained
from `JSON.parse` carry no NaN, and every claim below is exercised on
values where the rational model and double arithmetic agree exactly.
-/

namespace Dashboard

/-- JSON-like values as delivered by `response.json()`: null, booleans,
numbers, strings, arrays and objects (ordered key/value lists; with
duplicate keys `JSON.parse` keeps the last binding). -/
inductive JSONValue where
  | null : JSONValue
  | bool (b : Bool) : JSONValue
  | num (q : ℚ) : JSONValue
  | str (s : String) : JSONValue
  | arr (elems : List JSONValue) : JSONValue
  | obj (fields : List (String × JSONValue)) : JSONValue

/-- JavaScript truthiness of a possibly-undefined JSON value:
`undefined` (`none`), `null`, `false`, `0` and the empty string are
falsy, everything else (all objects and arrays included) is truthy. -/
def isTruthy : Option JSONValue → Bool
  | none => false
  | some JSONValue.null => false
  | some (JSONValue.bool b) => b
  | some (JSONValue.num q) => decide (q ≠ 0)
  | some (JSONValue.str s) => decide (s ≠ "")
  | some (JSONValue.arr _) => true
  | some (JSONValue.obj _) => true

/-- Property lookup on a JSON object: with duplicate keys `JSON.parse`
keeps the last binding, so the lookup scans from the end. -/
def objLookup (fields : List (String × JSONValue)) (key : String) : Option JSONValue :=
  fields.reverse.lookup key

/-- A string is a canonical JavaScript array index when it is the
decimal numeral of a natural number without leading zeros. -/
def parseArrayIndex (s : String) : Option Nat :=
  match s.data with
  | [] => none
  | c :: cs =>
      if (c :: cs).all Char.isDigit ∧ (c = '0' → cs = []) then
        some ((c :: cs).foldl (fun n d => 10 * n + (d.toNat - 48)) 0)
      else none

/-- JavaScript bracket access `v[key]` on a JSON value, restricted to
the own properties observable on JSON data: object fields, array
elements and `length`, string characters and `length`.  Accessing a
number or boolean yields `undefined`. -/
def jsIndexVal : JSONValue → String → Option JSONValue
  | JSONValue.obj fields, key => objLookup fields key
  | JSONValue.arr elems, key =>
      if key = "length" then some (JSONValue.num elems.length)
      else match parseArrayIndex key with
        | some i => elems[i]?
        | none => none
  | JSONValue.str s, key =>
      if key = "length" then some (JSONValue.num s.length)
      else match parseArrayIndex key with
        | some i => (s.data[i]?).map (fun c => JSONValue.str (String.mk [c]))
        | none => none
  | _, _ => none

/-- One step of the reducer in `getValueFromPath`:
`(acc, part) => acc && acc[part]`.  When `acc` is falsy the `&&`
short-circuits and returns `acc` itself; otherwise it returns
`acc[part]`. -/
def pathStep (acc : Option JSONValue) (part : String) : Option JSONValue :=
  if isTruthy acc then
    match acc with
    | some v => jsIndexVal v part
    | none => none
  else acc

/-- Splitting a character list on a separator character, as
`String.prototype.split` does with a one-character separator:
`splitOnCharAux sep "a.b" = ["a", "b"]`, `"a..b" ↦ ["a", "", "b"]`,
`"" ↦ [""]`. -/
def splitOnCharAux (sep : Char) : List Char → List (List Char)
  | [] => [[]]
  | c :: cs =>
      match splitOnCharAux sep cs with
      | [] => if c = sep then [[], []] else [[c]]
      | seg :: rest => if c = sep then [] :: seg :: rest else (c :: seg) :: rest

/-- Model of `path.split('.')` as a list of segment strings. -/
def splitDot (path : String) : List String :=
  (splitOnCharAux '.' path.data).map String.mk

/-- Function `getValueFromPath(obj, path)` from `src/src/App.js` lines 17-20:
`if (!path) return obj; return path.split('.').reduce((acc, part) => acc && acc[part], obj)`.
`none` plays the role of `undefined` (the absent value). -/
def getValueFromPath (obj : JSONValue) (path : String) : Option JSONValue :=
  if path = "" then some obj
  else (splitDot path).foldl pathStep (some obj)

/-- Numeric value of a list of decimal digit characters. -/
def digitsToNat (ds : List Char) : Nat :=
  ds.foldl (fun n d => 10 * n + (d.toNat - 48)) 0

/-- JavaScript `parseFloat` on a string: skip leading whitespace, read
an optional sign, then the longest prefix shaped
`digits [ '.' digits ] [ ('e' | 'E') sign digits ]`; at least one digit
must appear before the exponent part, otherwise the result is NaN
(`none` here).  An exponent marker not followed by digits is ignored,
as in `parseFloat("1e") == 1`.  The IEEE `Infinity` literal has no
rational counterpart and is outside this model. -/
def parseFloatJS (s : String) : Option ℚ :=
  let cs := s.data.dropWhile (fun c => c = ' ' ∨ c = '\t' ∨ c = '\n' ∨ c = '\r')
  let (neg, cs₁) : Bool × List Char :=
    match cs with
    | '-' :: rest => (true, rest)
    | '+' :: rest => (false, rest)
    | _ => (false, cs)
  let intPart := cs₁.takeWhile Char.isDigit
  let cs₂ := cs₁.dropWhile Char.isDigit
  let (fracPart, cs₃) : List Char × List Char :=
    match cs₂ with
    | '.' :: rest => (rest.takeWhile Char.isDigit, rest.dropWhile Char.isDigit)
    | _ => ([], cs₂)
  if intPart = [] ∧ fracPart = [] then none
  else
    let mant : ℕ := digitsToNat intPart * 10 ^ fracPart.length + digitsToNat fracPart
    let signedMant : ℤ := if neg then -(mant : ℤ) else (mant : ℤ)
    let expo : ℤ :=
      match cs₃ with
      | 'e' :: '-' :: rest => -(digitsToNat (rest.takeWhile Char.isDigit) : ℤ)
      | 'E' :: '-' :: rest => -(digitsToNat (rest.takeWhile Char.isDigit) : ℤ)
      | 'e' :: '+' :: rest => (digitsToNat (rest.takeWhile Char.isDigit) : ℤ)
      | 'E' :: '+' :: rest => (digitsToNat (rest.takeWhile Char.isDigit) : ℤ)
      | 'e' :: rest => (digitsToNat (rest.takeWhile Char.isDigit) : ℤ)
      | 'E' :: rest => (digitsToNat (rest.takeWhile Char.isDigit) : ℤ)
      | _ => 0
    if 0 ≤ expo then some (mkRat (signedMant * (10 : ℤ) ^ expo.toNat) (10 ^ fracPart.length))
    else some (mkRat signedMant (10 ^ fracPart.length * 10 ^ (-expo).toNat))

/-- Rendering a rational as JavaScript renders the corresponding
number.  Integers render exactly.  A non-integral value whose
denominator divides a power of ten renders as its exact terminating
decimal, matching JavaScript output on short decimals; other rationals
have no exact double counterpart and fall back to a fraction notation
never exercised by the claims. -/
def ratToJsString (q : ℚ) : String :=
  if q.den = 1 then toString q.num
  else
    match (List.range 64).find? (fun k => 10 ^ k % q.den = 0) with
    | some k =>
        let scaled := q.num.natAbs * (10 ^ k / q.den)
        let digits := toString scaled
        let padded := String.mk (List.replicate (k + 1 - digits.data.length) '0') ++ digits
        let intDigits := String.mk (padded.data.take (padded.data.length - k))
        let fracDigits := String.mk ((padded.data.drop (padded.data.length - k)).reverse.dropWhile (· = '0')).reverse
        (if q.num < 0 then "-" else "") ++ intDigits ++ "." ++ String.mk fracDigits.data
    | none => toString q.num ++ "/" ++ toString q.den

/-- Model of `parts.join(',')`. -/
def joinComma : List String → String
  | [] => ""
  | [s] => s
  | s :: rest => s ++ "," ++ joinComma rest

mutual

/-- Rendering `String(element)` as used by `Array.prototype.join`: `null` (and a
hole) contributes the empty string; other values render as usual. -/
def jsElemString : JSONValue → String
  | JSONValue.null => ""
  | JSONValue.bool b => cond b "true" "false"
  | JSONValue.num q => ratToJsString q
  | JSONValue.str s => s
  | JSONValue.arr elems => joinComma (jsElemStrings elems)
  | JSONValue.obj _ => "[object Object]"

/-- Element-wise rendering of an array for `join(',')`. -/
def jsElemStrings : List JSONValue → List String
  | [] => []
  | v :: vs => jsElemString v :: jsElemStrings vs

end

/-- The `String(value)` coercion `parseFloat` applies to its argument:
`undefined` becomes `"undefined"`, `null` becomes `"null"`, booleans
their literals, arrays join their elements with commas, and plain
objects become `"[object Object]"`. -/
def jsCoerceString : Option JSONValue → String
  | none => "undefined"
  | some JSONValue.null => "null"
  | some (JSONValue.bool b) => cond b "true" "false"
  | some (JSONValue.num q) => ratToJsString q
  | some (JSONValue.str s) => s
  | some (JSONValue.arr elems) => joinComma (jsElemStrings elems)
  | some (JSONValue.obj _) => "[object Object]"

/-- The numeric coercion of `src/src/App.js` line 35:
`typeof value === 'number' ? value : parseFloat(value) || 0`.
`parseFloat` failure yields NaN, which `|| 0` maps to `0`; a parsed
`0` is falsy and `|| 0` maps it to the identical `0`, so the `||`
collapses to `Option.getD` with default `0`. -/
def coerceValue : Option JSONValue → ℚ
  | some (JSONValue.num q) => q
  | w => (parseFloatJS (jsCoerceString w)).getD 0

/-- One data point as built in `fetchData` (line 33-37):
`{ timestamp: new Date().toLocaleTimeString(), value: ..., fullData: json }`. -/
structure Sample where
  timestamp : String
  value : ℚ
  fullData : JSONValue

/-- The React state of `LiveDataDashboard` (lines 6-14). -/
structure DashState where
  data : List Sample
  isLive : Bool
  apiUrl : String
  refreshInterval : Nat
  lastUpdate : Option String
  error : Option String
  isConfigOpen : Bool
  jsonPath : String
  maxDataPoints : Nat

/-- Model of `array.slice(-n)` on a list: for `n ≥ 1` the last `min n length`
elements; `slice(-0)` is `slice(0)`, the whole array. -/
def jsSliceNeg (n : Nat) (l : List Sample) : List Sample :=
  if n = 0 then l else l.drop (l.length - n)

/-- The data point `fetchData` constructs from the parsed response
body `json` (lines 33-37). -/
def mkSample (s : DashState) (json : JSONValue) (ts : String) : Sample :=
  { timestamp := ts
    value := coerceValue (getValueFromPath json s.jsonPath)
    fullData := json }

/-- Outcome of `fetch(apiUrl)` followed by `response.json()`:
the promise rejects with a transport error, or resolves with an
`ok` flag, a status code, and a body whose JSON parse may itself
fail with a message. -/
inductive FetchOutcome where
  | reject (msg : String) : FetchOutcome
  | resolve (ok : Bool) (status : Nat) (body : Except String JSONValue) : FetchOutcome

/-- Function `fetchData` (lines 23-51) as a state transformer given the fetch
outcome and the two clock readings (`toLocaleTimeString` for the
sample, `new Date()` for `lastUpdate`).  The `try/catch` wraps the
whole step, so every failure lands in `setError` with the data left
untouched, and the function is total: no exception escapes the poll
step.  On success the new point is appended and the buffer cut to the
last `maxDataPoints` entries by `updated.slice(-maxDataPoints)`, then
`setLastUpdate` and `setError(null)` run. -/
def fetchData (s : DashState) (outcome : FetchOutcome) (ts now : String) : DashState :=
  match outcome with
  | FetchOutcome.reject msg => { s with error := some msg }
  | FetchOutcome.resolve ok status body =>
      if ¬ok then { s with error := some ("HTTP error! status: " ++ toString status) }
      else match body with
        | Except.error msg => { s with error := some msg }
        | Except.ok json =>
            { s with
                data := jsSliceNeg s.maxDataPoints (s.data ++ [mkSample s json ts])
                lastUpdate := some now
                error := none }

/-- Function `clearData` (lines 76-79): `setData([]); setError(null);`. -/
def clearData (s : DashState) : DashState :=
  { s with data := [], error := none }

/-- The `onChange` handler of the capacity input (line 252):
`setMaxDataPoints(Number(e.target.value))` — a bare state update. -/
def setMaxDataPointsInput (s : DashState) (n : Nat) : DashState :=
  { s with maxDataPoints := n }

/-- The `onChange` handler of the URL field (line 227):
`setApiUrl(e.target.value)` — a bare state update. -/
def setApiUrlInput (s : DashState) (u : String) : DashState :=
  { s with apiUrl := u }

/-- The `onChange` handler of the path field (line 238):
`setJsonPath(e.target.value)` — a bare state update. -/
def setJsonPathInput (s : DashState) (p : String) : DashState :=
  { s with jsonPath := p }

/-- An entry of the bundled `apiExamples` list (lines 82-107). -/
structure ApiExample where
  name : String
  url : String
  path : String
  description : String

/-- Function `loadExample` (lines 109-114): set URL and path from the example,
close the configuration panel, then `clearData()`. -/
def loadExample (s : DashState) (ex : ApiExample) : DashState :=
  clearData { s with apiUrl := ex.url, jsonPath := ex.path, isConfigOpen := false }

/-- The repeated-append process of claim C4: a sequence of poll
appends, each running `[...prevData, newDataPoint].slice(-N)`
(lines 39-43) with a fixed capacity `N`, starting from the empty
buffer. -/
def appendAll (n : Nat) (pts : List Sample) : List Sample :=
  pts.foldl (fun acc pt => jsSliceNeg n (acc ++ [pt])) []

/-- The aggregate record of the `stats` expression (lines 116-121). -/
structure StatsR where
  latest : ℚ
  min : ℚ
  max : ℚ
  avg : ℚ

/-- Expression `stats` (lines 116-121): `null` when the buffer is empty,
otherwise the value of the last point, `Math.min`/`Math.max` over all
point values, and the arithmetic mean `reduce(+, 0) / length`. -/
def stats (data : List Sample) : Option StatsR :=
  match data with
  | [] => none
  | d :: ds =>
      some
        { latest := ((d :: ds).getLast (List.cons_ne_nil d ds)).value
          min := ds.foldl (fun a pt => Min.min a pt.value) d.value
          max := ds.foldl (fun a pt => Max.max a pt.value) d.value
          avg := ((d :: ds).foldl (fun sum pt => sum + pt.value) 0) / ((d :: ds).length : ℚ) }

/-- A repeating timer armed by `setInterval`, identified by the handle
the browser returned and carrying the period it was armed with. -/
structure TimerEntry where
  handle : Nat
  period : Nat

/-- The timer-lifecycle state of the `useEffect` block (lines 54-70):
the two dependency values `isLive` and `refreshInterval`, the set of
currently armed interval timers, the handle the pending effect cleanup
captured (`intervalId`), and a fresh-handle counter. -/
structure CtrlState where
  isLive : Bool
  interval : Nat
  armed : List TimerEntry
  cleanupHandle : Option Nat
  nextHandle : Nat

/-- Running the effect cleanup (lines 67-69):
`if (intervalId) clearInterval(intervalId)`. -/
def runCleanup (s : CtrlState) : CtrlState :=
  match s.cleanupHandle with
  | none => s
  | some h =>
      { s with
          armed := s.armed.filter (fun t => t.handle ≠ h)
          cleanupHandle := none }

/-- Re-running the effect after a dependency change: React first runs
the previous cleanup, then the effect body (lines 57-65), which arms
one interval timer at the current period when `isLive` holds. -/
def runEffect (s : CtrlState) : CtrlState :=
  let s' := runCleanup s
  if s'.isLive then
    { s' with
        armed := s'.armed ++ [⟨s'.nextHandle, s'.interval⟩]
        cleanupHandle := some s'.nextHandle
        nextHandle := s'.nextHandle + 1 }
  else s'

/-- The user-driven events that can touch the effect dependencies:
`setIsLive` (via `toggleLive`), `setRefreshInterval` (the interval
select), and a configuration change that renews the `fetchData`
callback identity (its `useCallback` dependencies `apiUrl`,
`jsonPath`, `maxDataPoints`). -/
inductive CtrlEvent where
  | setLive (b : Bool) : CtrlEvent
  | setIntervalMs (n : Nat) : CtrlEvent
  | configChanged : CtrlEvent

/-- One step of the effect lifecycle.  A state update to the identical
value bails out of the re-render (React skips it), so the effect only
re-runs when a dependency actually changes; `configChanged` renews the
`fetchData` identity and always re-runs the effect. -/
def ctrlStep (s : CtrlState) (e : CtrlEvent) : CtrlState :=
  match e with
  | CtrlEvent.setLive b => if b = s.isLive then s else runEffect { s with isLive := b }
  | CtrlEvent.setIntervalMs n => if n = s.interval then s else runEffect { s with interval := n }
  | CtrlEvent.configChanged => runEffect s

/-- The initial mounted state: `isLive` false, default interval, no
timer; the mount-time effect run arms nothing while paused. -/
def initCtrl : CtrlState :=
  runEffect { isLive := false, interval := 5000, armed := [], cleanupHandle := none, nextHandle := 0 }

/-- The controller state reached from mount by a sequence of events. -/
def runCtrl (events : List CtrlEvent) : CtrlState :=
  events.foldl ctrlStep initCtrl

/-- A concrete dashboard state holding three samples with capacity 20,
used to exercise the configuration actions. -/
def exState : DashState :=
  { data := [⟨"t1", 1, JSONValue.null⟩, ⟨"t2", 2, JSONValue.null⟩, ⟨"t3", 3, JSONValue.null⟩]
    isLive := false
    apiUrl := "https://api.coindesk.com/v1/bpi/currentprice.json"
    refreshInterval := 5000
    lastUpdate := none
    error := none
    isConfigOpen := true
    jsonPath := "bpi.USD.rate_float"
    maxDataPoints := 20 }

/-- Timer bookkeeping invariant of the effect lifecycle: while live,
exactly one timer is armed, it runs at the current interval, and the
pending cleanup tracks its handle; while paused, no timer is armed and
no cleanup is pending. -/
def ctrlInv (s : CtrlState) : Prop :=
  (s.isLive = true → ∃ h, s.armed = [⟨h, s.interval⟩] ∧ s.cleanupHandle = some h)
  ∧ (s.isLive = false → s.armed = [] ∧ s.cleanupHandle = none)

/-- Weaker bookkeeping fact used across an effect re-run: the pending
cleanup accounts for every armed timer. -/
def cleanupTracked (s : CtrlState) : Prop :=
  match s.cleanupHandle with
  | none => s.armed = []
  | some h => ∃ p, s.armed = [⟨h, p⟩]


end Dashboard



namespace Dashboard

theorem jsSliceNeg_eq_drop (n : Nat) (hn : 1 ≤ n) (l : List Sample) :
    jsSliceNeg n l = l.drop (l.length - n) := by
  unfold jsSliceNeg
  rw [if_neg (by omega)]

theorem foldl_slice_eq (n : Nat) (hn : 1 ≤ n) :
    ∀ (pts start : List Sample), start.length ≤ n →
      pts.foldl (fun acc pt => jsSliceNeg n (acc ++ [pt])) start
        = (start ++ pts).drop ((start ++ pts).length - n)
  | [], start, h => by
      simp [Nat.sub_eq_zero_of_le h]
  | x :: pts, start, h => by
      rw [List.foldl_cons, jsSliceNeg_eq_drop n hn (start ++ [x])]
      have hk : (start ++ [x]).length - n ≤ (start ++ [x]).length := Nat.sub_le _ _
      have hlen : ((start ++ [x]).drop ((start ++ [x]).length - n)).length ≤ n := by
        rw [List.length_drop]; omega
      rw [foldl_slice_eq n hn pts _ hlen]
      have happ : (start ++ [x]).drop ((start ++ [x]).length - n) ++ pts
          = (start ++ x :: pts).drop ((start ++ [x]).length - n) := by
        have hd : ((start ++ [x]) ++ pts).drop ((start ++ [x]).length - n)
            = (start ++ [x]).drop ((start ++ [x]).length - n) ++ pts :=
          List.drop_append_of_le_length hk
        simpa using hd.symm
      rw [happ, List.drop_drop]
      congr 1
      have h1 : ((start ++ x :: pts).drop ((start ++ [x]).length - n)).length
          = (start ++ x :: pts).length - ((start ++ [x]).length - n) :=
        List.length_drop _ _
      have h2 : (start ++ x :: pts).length = start.length + 1 + pts.length := by
        simp; omega
      have h3 : (start ++ [x]).length = start.length + 1 := by simp
      omega

/-- C4: for every sequence of appends into the buffer with capacity
`N ≥ 1` (each append running `[...prevData, newDataPoint].slice(-N)`
as in `fetchData`), the resulting length never exceeds `N`, and the
retained samples are exactly the last `N` appended, in arrival order
(`pts.drop (pts.length - N)` is that suffix; when fewer than `N`
points were appended it is all of them). -/
theorem seriesBuffer_fifo_bound (n : Nat) (hn : 1 ≤ n) (pts : List Sample) :
    (appendAll n pts).length ≤ n
      ∧ appendAll n pts = pts.drop (pts.length - n)
      ∧ (n ≤ pts.length → (appendAll n pts).length = n) := by
  have h := foldl_slice_eq n hn pts [] (by simp)
  simp only [List.nil_append] at h
  unfold appendAll
  rw [h]
  refine ⟨?_, rfl, ?_⟩
  · rw [List.length_drop]; omega
  · intro hle; rw [List.length_drop]; omega

/-- Witness for C4 at capacity 2 and three appended samples: the
buffer keeps the last two samples in order. -/
theorem seriesBuffer_fifo_bound_witness :
    ((appendAll 2 [⟨"t1", 1, JSONValue.null⟩, ⟨"t2", 2, JSONValue.null⟩,
        ⟨"t3", 3, JSONValue.null⟩]).length ≤ 2
      ∧ appendAll 2 [⟨"t1", 1, JSONValue.null⟩, ⟨"t2", 2, JSONValue.null⟩,
          ⟨"t3", 3, JSONValue.null⟩]
        = [(⟨"t1", 1, JSONValue.null⟩ : Sample), ⟨"t2", 2, JSONValue.null⟩,
            ⟨"t3", 3, JSONValue.null⟩].drop
            ([(⟨"t1", 1, JSONValue.null⟩ : Sample), ⟨"t2", 2, JSONValue.null⟩,
              ⟨"t3", 3, JSONValue.null⟩].length - 2)
      ∧ (2 ≤ [(⟨"t1", 1, JSONValue.null⟩ : Sample), ⟨"t2", 2, JSONValue.null⟩,
            ⟨"t3", 3, JSONValue.null⟩].length →
          (appendAll 2 [⟨"t1", 1, JSONValue.null⟩, ⟨"t2", 2, JSONValue.null⟩,
            ⟨"t3", 3, JSONValue.null⟩]).length = 2))
    ∧ appendAll 2 [⟨"t1", 1, JSONValue.null⟩, ⟨"t2", 2, JSONValue.null⟩,
        ⟨"t3", 3, JSONValue.null⟩]
      = [⟨"t2", 2, JSONValue.null⟩, ⟨"t3", 3, JSONValue.null⟩] :=
  ⟨seriesBuffer_fifo_bound 2 (by omega) _, rfl⟩

/-- C9: extraction with the empty path is the identity on the root
value: `if (!path) return obj` fires, since the empty string is the
only falsy path string. -/
theorem extract_empty_path (v : JSONValue) : getValueFromPath v "" = some v := by
  simp [getValueFromPath]

/-- C1 counterexample: at the root `{a: 0}` with path `"a.b"` the
second traversal step sees the current value `0`, which is not a
mapping, yet `extract` returns `0` itself (the JavaScript `&&`
short-circuits on the falsy accumulator and yields it), not `Absent`:
the claim that every such step produces `Absent` is false. -/
theorem extract_nonmapping_absent_cex :
    getValueFromPath (JSONValue.obj [("a", JSONValue.num 0)]) "a.b"
        = some (JSONValue.num 0)
      ∧ (getValueFromPath (JSONValue.obj [("a", JSONValue.num 0)]) "a.b").isSome = true :=
  ⟨rfl, rfl⟩

/-- C1 amended: at each traversal step, when the current value is
truthy and lacks an own entry for the key of the segment — in
particular a mapping without the literal bracket-notation key such as
`results[0]` — the step yields `Absent`, and once the accumulator is
`Absent` every further step keeps it `Absent` (traversal stops); but
when the current value is falsy (`null`, `false`, `0`, the empty
string) the step returns that falsy value itself rather than `Absent`.
In particular extraction of path `a.c` from the mapping with the lone
entry `a ↦ (b ↦ 5)` is `Absent`. -/
theorem extract_absent_amended :
    (∀ (v : JSONValue) (part : String),
        isTruthy (some v) = true → jsIndexVal v part = none →
          pathStep (some v) part = none)
    ∧ (∀ (v : JSONValue) (part : String),
        isTruthy (some v) = false → pathStep (some v) part = some v)
    ∧ (∀ parts : List String, parts.foldl pathStep none = none)
    ∧ (∀ (fields : List (String × JSONValue)),
        objLookup fields "results[0]" = none →
          pathStep (some (JSONValue.obj fields)) "results[0]" = none)
    ∧ getValueFromPath (JSONValue.obj [("a", JSONValue.obj [("b", JSONValue.num 5)])]) "a.c"
        = none := by
  refine ⟨?_, ?_, ?_, ?_, rfl⟩
  · intro v part htruthy hidx
    simp [pathStep, htruthy, hidx]
  · intro v part hfalsy
    simp [pathStep, hfalsy]
  · intro parts
    induction parts with
    | nil => rfl
    | cons p parts ih => simpa [pathStep, isTruthy] using ih
  · intro fields hlook
    simp [pathStep, isTruthy, jsIndexVal, hlook]

/-- Witness for C1 amended, exercised on concrete inputs: an empty
mapping misses the key `k`; the falsy current value `0` is returned
as itself; an absent accumulator stays absent over segments; a
mapping without the literal key `results[0]` yields `Absent`. -/
theorem extract_absent_amended_witness :
    pathStep (some (JSONValue.obj [])) "k" = none
    ∧ pathStep (some (JSONValue.num 0)) "b" = some (JSONValue.num 0)
    ∧ ["login", "uuid"].foldl pathStep none = none
    ∧ pathStep (some (JSONValue.obj [("results", JSONValue.arr [])])) "results[0]" = none :=
  ⟨extract_absent_amended.1 (JSONValue.obj []) "k" rfl rfl,
    extract_absent_amended.2.1 (JSONValue.num 0) "b" rfl,
    extract_absent_amended.2.2.1 ["login", "uuid"],
    extract_absent_amended.2.2.2.1 [("results", JSONValue.arr [])] rfl⟩

/-- C2 counterexample: on a state holding 3 samples, reducing the
capacity to 2 through the capacity input leaves all 3 samples in
place — nothing is evicted at the moment of the change, so the claim
that `setCapacity(n)` immediately trims to the `n` most recent
samples is false. -/
theorem setCapacity_immediate_trim_cex :
    (setMaxDataPointsInput exState 2).maxDataPoints = 2
    ∧ (setMaxDataPointsInput exState 2).data.length = 3
    ∧ ¬ (setMaxDataPointsInput exState 2).data.length ≤ 2 :=
  ⟨rfl, rfl, by decide⟩

/-- C2 amended: the capacity change only records the new capacity and
evicts nothing; the buffer is trimmed on the next successful poll,
whose append cuts it to the `n` most recent samples (the new sample
included), leaving at most `n` samples. -/
theorem setCapacity_deferred_trim (s : DashState) (n : Nat) (hn : 1 ≤ n) :
    (setMaxDataPointsInput s n).data = s.data
    ∧ (setMaxDataPointsInput s n).maxDataPoints = n
    ∧ ∀ (status : Nat) (json : JSONValue) (ts now : String),
        (fetchData (setMaxDataPointsInput s n)
            (FetchOutcome.resolve true status (Except.ok json)) ts now).data
          = (s.data ++ [mkSample (setMaxDataPointsInput s n) json ts]).drop
              ((s.data.length + 1) - n)
        ∧ (fetchData (setMaxDataPointsInput s n)
            (FetchOutcome.resolve true status (Except.ok json)) ts now).data.length ≤ n := by
  refine ⟨rfl, rfl, ?_⟩
  intro status json ts now
  have hdata : (fetchData (setMaxDataPointsInput s n)
      (FetchOutcome.resolve true status (Except.ok json)) ts now).data
      = jsSliceNeg n (s.data ++ [mkSample (setMaxDataPointsInput s n) json ts]) := by
    simp [fetchData, setMaxDataPointsInput]
  rw [hdata, jsSliceNeg_eq_drop n hn]
  constructor
  · congr 1
    simp
  · rw [List.length_drop]
    simp only [List.length_append, List.length_cons]
    omega

/-- Witness for C2 amended at capacity 2 on the three-sample state:
the capacity field updates, the data stays for the moment, and the
next successful poll trims the buffer. -/
theorem setCapacity_deferred_trim_witness :
    (setMaxDataPointsInput exState 2).data = exState.data
    ∧ (setMaxDataPointsInput exState 2).maxDataPoints = 2
    ∧ ∀ (status : Nat) (json : JSONValue) (ts now : String),
        (fetchData (setMaxDataPointsInput exState 2)
            (FetchOutcome.resolve true status (Except.ok json)) ts now).data
          = (exState.data ++ [mkSample (setMaxDataPointsInput exState 2) json ts]).drop
              ((exState.data.length + 1) - 2)
        ∧ (fetchData (setMaxDataPointsInput exState 2)
            (FetchOutcome.resolve true status (Except.ok json)) ts now).data.length ≤ 2 :=
  setCapacity_deferred_trim exState 2 (by omega)

/-- C3 counterexample: editing the URL field directly (its `onChange`
runs only `setApiUrl`) and editing the path field directly (only
`setJsonPath`) leave a non-empty buffer untouched — neither triggers
`clearData`, so the claim that every configuration change to URL or
path clears the buffer is false. -/
theorem configEdit_clear_cex :
    (setApiUrlInput exState "https://example.com/other").data.length = 3
    ∧ (setApiUrlInput exState "https://example.com/other").apiUrl
        = "https://example.com/other"
    ∧ (setJsonPathInput exState "data.price").data.length = 3
    ∧ (setJsonPathInput exState "data.price").jsonPath = "data.price" :=
  ⟨rfl, rfl, rfl, rfl⟩

/-- C3 amended: picking a bundled example (`loadExample`) updates the
URL and path and clears the buffer (and the error with it); editing
the URL or path fields directly updates only that configuration value
and leaves the buffer exactly as it was. -/
theorem config_clear_amended :
    (∀ (s : DashState) (ex : ApiExample),
        (loadExample s ex).data = []
        ∧ (loadExample s ex).error = none
        ∧ (loadExample s ex).apiUrl = ex.url
        ∧ (loadExample s ex).jsonPath = ex.path)
    ∧ (∀ (s : DashState) (u : String),
        (setApiUrlInput s u).data = s.data ∧ (setApiUrlInput s u).apiUrl = u)
    ∧ (∀ (s : DashState) (p : String),
        (setJsonPathInput s p).data = s.data ∧ (setJsonPathInput s p).jsonPath = p) := by
  refine ⟨?_, ?_, ?_⟩
  · intro s ex
    simp [loadExample, clearData]
  · intro s u
    simp [setApiUrlInput]
  · intro s p
    simp [setJsonPathInput]

/-- C5: the numeric coercion used to build a sample takes a numeric
leaf as-is; every other leaf (and the absent value) goes through the
`String(value)` coercion and `parseFloat`, and a parse failure — which
is what happens for `undefined`, `null`, both booleans and plain
objects — defaults the numeric value to `0`.  The coercion is a total
function: it never raises. -/
theorem coerceValue_spec :
    (∀ q : ℚ, coerceValue (some (JSONValue.num q)) = q)
    ∧ coerceValue none = 0
    ∧ coerceValue (some JSONValue.null) = 0
    ∧ (∀ b : Bool, coerceValue (some (JSONValue.bool b)) = 0)
    ∧ (∀ fields : List (String × JSONValue), coerceValue (some (JSONValue.obj fields)) = 0)
    ∧ (∀ s : String, coerceValue (some (JSONValue.str s)) = (parseFloatJS s).getD 0)
    ∧ (∀ elems : List JSONValue, coerceValue (some (JSONValue.arr elems))
        = (parseFloatJS (jsCoerceString (some (JSONValue.arr elems)))).getD 0) := by
  refine ⟨fun q => rfl, rfl, rfl, ?_, fun fields => rfl, fun s => rfl, fun elems => rfl⟩
  intro b
  cases b <;> rfl

/-- C6: the poll step never escapes its boundary and maps every
outcome to a total state update.  On a transport rejection, on a
non-success HTTP status, and on a response whose body fails to parse,
the only changes are that `error` is set to a message — `data` (the
series buffer) and `lastUpdate` are untouched.  On success the sample
is appended (under the capacity cut), `lastUpdate` is refreshed, and
`error` is reset to `none` whatever it was before — so a successful
poll clears a previously recorded failure. -/
theorem fetchData_error_boundary :
    (∀ (s : DashState) (msg ts now : String),
        fetchData s (FetchOutcome.reject msg) ts now = { s with error := some msg })
    ∧ (∀ (s : DashState) (status : Nat) (body : Except String JSONValue) (ts now : String),
        fetchData s (FetchOutcome.resolve false status body) ts now
          = { s with error := some ("HTTP error! status: " ++ toString status) })
    ∧ (∀ (s : DashState) (status : Nat) (msg ts now : String),
        fetchData s (FetchOutcome.resolve true status (Except.error msg)) ts now
          = { s with error := some msg })
    ∧ (∀ (s : DashState) (status : Nat) (json : JSONValue) (ts now : String),
        fetchData s (FetchOutcome.resolve true status (Except.ok json)) ts now
          = { s with
                data := jsSliceNeg s.maxDataPoints (s.data ++ [mkSample s json ts])
                lastUpdate := some now
                error := none }) := by
  refine ⟨fun s msg ts now => rfl, ?_, fun s status msg ts now => rfl,
    fun s status json ts now => rfl⟩
  intro s status body ts now
  simp [fetchData]

/-- C10: `clearData` empties the buffer and also resets the error to
the absent state, so no error from a previous failed poll remains
observable after a clear. -/
theorem clearData_clears_error (s : DashState) :
    (clearData s).data = [] ∧ (clearData s).error = none := by
  simp [clearData]

theorem foldl_min_le_init (a : ℚ) (l : List Sample) :
    l.foldl (fun x pt => Min.min x pt.value) a ≤ a := by
  induction l generalizing a with
  | nil => exact le_refl a
  | cons hd tl ih =>
      exact le_trans (ih (Min.min a hd.value)) (min_le_left _ _)

theorem foldl_min_le_mem (a : ℚ) (l : List Sample) (pt : Sample) :
    pt ∈ l → l.foldl (fun x p => Min.min x p.value) a ≤ pt.value := by
  induction l generalizing a with
  | nil => intro h; cases h
  | cons hd tl ih =>
      intro h
      simp only [List.foldl_cons]
      rcases List.mem_cons.mp h with h | h
      · subst h
        exact le_trans (foldl_min_le_init _ _) (min_le_right _ _)
      · exact ih _ h

theorem foldl_min_attained (a : ℚ) (l : List Sample) :
    l.foldl (fun x p => Min.min x p.value) a = a
      ∨ ∃ pt ∈ l, l.foldl (fun x p => Min.min x p.value) a = pt.value := by
  induction l generalizing a with
  | nil => exact Or.inl rfl
  | cons hd tl ih =>
      simp only [List.foldl_cons]
      rcases ih (Min.min a hd.value) with h | ⟨pt, hmem, heq⟩
      · rcases min_choice a hd.value with hmin | hmin
        · exact Or.inl (h.trans hmin)
        · exact Or.inr ⟨hd, List.mem_cons_self hd tl, h.trans hmin⟩
      · exact Or.inr ⟨pt, List.mem_cons_of_mem hd hmem, heq⟩

theorem foldl_max_ge_init (a : ℚ) (l : List Sample) :
    a ≤ l.foldl (fun x pt => Max.max x pt.value) a := by
  induction l generalizing a with
  | nil => exact le_refl a
  | cons hd tl ih =>
      exact le_trans (le_max_left _ _) (ih (Max.max a hd.value))

theorem foldl_max_ge_mem (a : ℚ) (l : List Sample) (pt : Sample) :
    pt ∈ l → pt.value ≤ l.foldl (fun x p => Max.max x p.value) a := by
  induction l generalizing a with
  | nil => intro h; cases h
  | cons hd tl ih =>
      intro h
      simp only [List.foldl_cons]
      rcases List.mem_cons.mp h with h | h
      · subst h
        exact le_trans (le_max_right _ _) (foldl_max_ge_init _ _)
      · exact ih _ h

theorem foldl_max_attained (a : ℚ) (l : List Sample) :
    l.foldl (fun x p => Max.max x p.value) a = a
      ∨ ∃ pt ∈ l, l.foldl (fun x p => Max.max x p.value) a = pt.value := by
  induction l generalizing a with
  | nil => exact Or.inl rfl
  | cons hd tl ih =>
      simp only [List.foldl_cons]
      rcases ih (Max.max a hd.value) with h | ⟨pt, hmem, heq⟩
      · rcases max_choice a hd.value with hmax | hmax
        · exact Or.inl (h.trans hmax)
        · exact Or.inr ⟨hd, List.mem_cons_self hd tl, h.trans hmax⟩
      · exact Or.inr ⟨pt, List.mem_cons_of_mem hd hmem, heq⟩

theorem foldl_add_eq_sum (a : ℚ) (l : List Sample) :
    l.foldl (fun x p => x + p.value) a = a + (l.map Sample.value).sum := by
  induction l generalizing a with
  | nil => simp
  | cons hd tl ih =>
      simp only [List.foldl_cons, List.map_cons, List.sum_cons, ih, add_assoc]

/-- C7: `stats` is `null` exactly when the buffer is empty; on a
non-empty buffer it reports the value of the last retained sample,
the least and greatest retained values (each attained by a retained
sample), and the arithmetic mean of the retained values; on the
values 2, 4, 6 it yields last 6, min 2, max 6, mean 4. -/
theorem stats_aggregate_spec :
    stats [] = none
    ∧ (∀ data : List Sample, stats data = none → data = [])
    ∧ (∀ data : List Sample, data ≠ [] →
        ∃ st, stats data = some st
          ∧ (∃ lastPt, data.getLast? = some lastPt ∧ st.latest = lastPt.value)
          ∧ (∀ pt ∈ data, st.min ≤ pt.value)
          ∧ (∃ pt ∈ data, st.min = pt.value)
          ∧ (∀ pt ∈ data, pt.value ≤ st.max)
          ∧ (∃ pt ∈ data, st.max = pt.value)
          ∧ st.avg = (data.map Sample.value).sum / (data.length : ℚ))
    ∧ stats [⟨"t1", 2, JSONValue.null⟩, ⟨"t2", 4, JSONValue.null⟩, ⟨"t3", 6, JSONValue.null⟩]
        = some ⟨6, 2, 6, 4⟩ := by
  refine ⟨rfl, ?_, ?_, ?_⟩
  · intro data h
    cases data with
    | nil => rfl
    | cons d ds => simp [stats] at h
  · intro data hne
    cases data with
    | nil => exact absurd rfl hne
    | cons d ds =>
        refine ⟨_, rfl, ?_, ?_, ?_, ?_, ?_, ?_⟩
        · exact ⟨(d :: ds).getLast (List.cons_ne_nil d ds),
            List.getLast?_eq_getLast _ _, rfl⟩
        · intro pt hpt
          rcases List.mem_cons.mp hpt with h | h
          · subst h; exact foldl_min_le_init _ _
          · exact foldl_min_le_mem _ _ _ h
        · rcases foldl_min_attained d.value ds with h | ⟨pt, hmem, heq⟩
          · exact ⟨d, List.mem_cons_self d ds, h⟩
          · exact ⟨pt, List.mem_cons_of_mem d hmem, heq⟩
        · intro pt hpt
          rcases List.mem_cons.mp hpt with h | h
          · subst h; exact foldl_max_ge_init _ _
          · exact foldl_max_ge_mem _ _ _ h
        · rcases foldl_max_attained d.value ds with h | ⟨pt, hmem, heq⟩
          · exact ⟨d, List.mem_cons_self d ds, h⟩
          · exact ⟨pt, List.mem_cons_of_mem d hmem, heq⟩
        · show ((d :: ds).foldl (fun sum pt => sum + pt.value) 0) / (((d :: ds).length : ℕ) : ℚ)
              = ((d :: ds).map Sample.value).sum / (((d :: ds).length : ℕ) : ℚ)
          rw [foldl_add_eq_sum, zero_add]
  · show stats _ = _
    norm_num [stats, min_def, max_def, List.getLast]

/-- Witness for C7 on a concrete non-empty buffer holding the single
value 5: `stats` is defined and reports that sample as last, min, max
and mean. -/
theorem stats_aggregate_spec_witness :
    ∃ st, stats [⟨"t0", 5, JSONValue.null⟩] = some st
      ∧ (∃ lastPt, [(⟨"t0", 5, JSONValue.null⟩ : Sample)].getLast? = some lastPt
          ∧ st.latest = lastPt.value)
      ∧ (∀ pt ∈ [(⟨"t0", 5, JSONValue.null⟩ : Sample)], st.min ≤ pt.value)
      ∧ (∃ pt ∈ [(⟨"t0", 5, JSONValue.null⟩ : Sample)], st.min = pt.value)
      ∧ (∀ pt ∈ [(⟨"t0", 5, JSONValue.null⟩ : Sample)], pt.value ≤ st.max)
      ∧ (∃ pt ∈ [(⟨"t0", 5, JSONValue.null⟩ : Sample)], st.max = pt.value)
      ∧ st.avg = ([(⟨"t0", 5, JSONValue.null⟩ : Sample)].map Sample.value).sum
          / (([(⟨"t0", 5, JSONValue.null⟩ : Sample)].length : ℕ) : ℚ) :=
  stats_aggregate_spec.2.2.1 [⟨"t0", 5, JSONValue.null⟩] (by simp)

theorem ctrlInv_cleanupTracked (s : CtrlState) (hinv : ctrlInv s) : cleanupTracked s := by
  obtain ⟨hlive, hpause⟩ := hinv
  cases hl : s.isLive with
  | false =>
      obtain ⟨harmed, hclean⟩ := hpause hl
      unfold cleanupTracked
      rw [hclean]
      exact harmed
  | true =>
      obtain ⟨h, harmed, hclean⟩ := hlive hl
      unfold cleanupTracked
      rw [hclean]
      exact ⟨s.interval, harmed⟩

theorem runCleanup_spec (s : CtrlState) (h : cleanupTracked s) :
    (runCleanup s).armed = [] ∧ (runCleanup s).cleanupHandle = none
      ∧ (runCleanup s).isLive = s.isLive ∧ (runCleanup s).interval = s.interval
      ∧ (runCleanup s).nextHandle = s.nextHandle := by
  unfold cleanupTracked at h
  unfold runCleanup
  cases hc : s.cleanupHandle with
  | none =>
      rw [hc] at h
      exact ⟨h, hc, rfl, rfl, rfl⟩
  | some hh =>
      rw [hc] at h
      obtain ⟨p, harmed⟩ := h
      refine ⟨?_, rfl, rfl, rfl, rfl⟩
      rw [harmed]
      simp

theorem runEffect_inv (s : CtrlState) (h : cleanupTracked s) : ctrlInv (runEffect s) := by
  obtain ⟨harmed, hclean, hlive, hint, hnext⟩ := runCleanup_spec s h
  unfold runEffect
  dsimp only
  cases hl : (runCleanup s).isLive with
  | true =>
      rw [if_pos rfl]
      constructor
      · intro _
        exact ⟨(runCleanup s).nextHandle, by rw [harmed]; rfl, rfl⟩
      · intro hfalse
        simp at hfalse
  | false =>
      rw [if_neg (by simp [hl])]
      constructor
      · intro htrue
        rw [hl] at htrue
        cases htrue
      · intro _
        exact ⟨harmed, hclean⟩

theorem ctrlStep_inv (s : CtrlState) (hinv : ctrlInv s) (e : CtrlEvent) :
    ctrlInv (ctrlStep s e) := by
  cases e with
  | setLive b =>
      simp only [ctrlStep]
      by_cases hb : b = s.isLive
      · rw [if_pos hb]; exact hinv
      · rw [if_neg hb]
        apply runEffect_inv
        have ht := ctrlInv_cleanupTracked s hinv
        unfold cleanupTracked at ht ⊢
        exact ht
  | setIntervalMs n =>
      simp only [ctrlStep]
      by_cases hn : n = s.interval
      · rw [if_pos hn]; exact hinv
      · rw [if_neg hn]
        apply runEffect_inv
        have ht := ctrlInv_cleanupTracked s hinv
        unfold cleanupTracked at ht ⊢
        exact ht
  | configChanged =>
      exact runEffect_inv s (ctrlInv_cleanupTracked s hinv)

theorem ctrlInv_initCtrl : ctrlInv initCtrl := by
  constructor
  · intro h
    simp [initCtrl, runEffect, runCleanup] at h
  · intro _
    simp [initCtrl, runEffect, runCleanup]

theorem ctrlInv_foldl : ∀ (events : List CtrlEvent) (s : CtrlState),
    ctrlInv s → ctrlInv (events.foldl ctrlStep s)
  | [], _, h => h
  | e :: es, s, h => ctrlInv_foldl es _ (ctrlStep_inv s h e)

theorem ctrlInv_runCtrl (events : List CtrlEvent) : ctrlInv (runCtrl events) :=
  ctrlInv_foldl events initCtrl ctrlInv_initCtrl

theorem runEffect_isLive (s : CtrlState) : (runEffect s).isLive = s.isLive := by
  unfold runEffect runCleanup
  cases s.cleanupHandle <;> dsimp <;> split <;> rfl

theorem ctrlStep_setLive_isLive (s : CtrlState) (b : Bool) :
    (ctrlStep s (CtrlEvent.setLive b)).isLive = b := by
  simp only [ctrlStep]
  by_cases hb : b = s.isLive
  · rw [if_pos hb]; exact hb.symm
  · rw [if_neg hb, runEffect_isLive]

theorem ctrlStep_setInterval_isLive (s : CtrlState) (n : Nat) :
    (ctrlStep s (CtrlEvent.setIntervalMs n)).isLive = s.isLive := by
  simp only [ctrlStep]
  by_cases hn : n = s.interval
  · rw [if_pos hn]
  · rw [if_neg hn, runEffect_isLive]

theorem runEffect_interval (s : CtrlState) : (runEffect s).interval = s.interval := by
  unfold runEffect runCleanup
  cases s.cleanupHandle <;> dsimp <;> split <;> rfl

theorem ctrlStep_setInterval_interval (s : CtrlState) (n : Nat) :
    (ctrlStep s (CtrlEvent.setIntervalMs n)).interval = n := by
  simp only [ctrlStep]
  by_cases hn : n = s.interval
  · rw [if_pos hn]; exact hn.symm
  · rw [if_neg hn, runEffect_interval]

theorem ctrlInv_armed_shape (s : CtrlState) (hinv : ctrlInv s) :
    s.armed.length = (if s.isLive then 1 else 0)
      ∧ ∀ t ∈ s.armed, t.period = s.interval := by
  obtain ⟨hlive, hpause⟩ := hinv
  cases hl : s.isLive with
  | true =>
      obtain ⟨h, harmed, _⟩ := hlive hl
      rw [harmed]
      refine ⟨rfl, ?_⟩
      intro t ht
      rcases List.mem_singleton.mp ht with rfl
      rfl
  | false =>
      obtain ⟨harmed, _⟩ := hpause hl
      rw [harmed]
      exact ⟨rfl, by intro t ht; cases ht⟩

/-- C8: in every state reachable from mount through live-toggle,
interval and configuration events, the number of armed timers is one
while live and zero while paused (so no sequence of events ever leaves
two timers armed), and every armed timer runs at the current interval;
issuing start twice in a row from any reachable state leaves exactly
one timer armed; changing the interval while live leaves exactly one
timer armed, at the new period. -/
theorem polling_single_timer (events : List CtrlEvent) :
    ((runCtrl events).armed.length = if (runCtrl events).isLive then 1 else 0)
    ∧ (∀ t ∈ (runCtrl events).armed, t.period = (runCtrl events).interval)
    ∧ (ctrlStep (ctrlStep (runCtrl events) (CtrlEvent.setLive true))
        (CtrlEvent.setLive true)).armed.length = 1
    ∧ (∀ n : Nat, (runCtrl events).isLive = true →
        (ctrlStep (runCtrl events) (CtrlEvent.setIntervalMs n)).armed.length = 1
          ∧ ∀ t ∈ (ctrlStep (runCtrl events) (CtrlEvent.setIntervalMs n)).armed,
              t.period = n) := by
  have hinv := ctrlInv_runCtrl events
  obtain ⟨hlen, hper⟩ := ctrlInv_armed_shape _ hinv
  refine ⟨hlen, hper, ?_, ?_⟩
  · have hinv2 := ctrlStep_inv _ (ctrlStep_inv _ hinv (CtrlEvent.setLive true))
      (CtrlEvent.setLive true)
    obtain ⟨hlen2, _⟩ := ctrlInv_armed_shape _ hinv2
    rw [hlen2, ctrlStep_setLive_isLive]
    rfl
  · intro n hlive
    have hinv3 := ctrlStep_inv _ hinv (CtrlEvent.setIntervalMs n)
    obtain ⟨hlen3, hper3⟩ := ctrlInv_armed_shape _ hinv3
    rw [ctrlStep_setInterval_isLive, hlive] at hlen3
    refine ⟨by rw [hlen3]; rfl, ?_⟩
    intro t ht
    rw [hper3 t ht, ctrlStep_setInterval_interval]

/-- Witness for C8 after the event sequence that starts live mode:
one timer armed at the default period; a repeated start keeps one
timer; an interval change to 1000 ms while live re-arms exactly one
timer at 1000 ms. -/
theorem polling_single_timer_witness :
    ((runCtrl [CtrlEvent.setLive true]).armed.length
        = if (runCtrl [CtrlEvent.setLive true]).isLive then 1 else 0)
    ∧ (∀ t ∈ (runCtrl [CtrlEvent.setLive true]).armed,
        t.period = (runCtrl [CtrlEvent.setLive true]).interval)
    ∧ (ctrlStep (ctrlStep (runCtrl [CtrlEvent.setLive true]) (CtrlEvent.setLive true))
        (CtrlEvent.setLive true)).armed.length = 1
    ∧ ((ctrlStep (runCtrl [CtrlEvent.setLive true]) (CtrlEvent.setIntervalMs 1000)).armed.length = 1
        ∧ ∀ t ∈ (ctrlStep (runCtrl [CtrlEvent.setLive true])
            (CtrlEvent.setIntervalMs 1000)).armed, t.period = 1000) :=
  ⟨(polling_single_timer [CtrlEvent.setLive true]).1,
    (polling_single_timer [CtrlEvent.setLive true]).2.1,
    (polling_single_timer [CtrlEvent.setLive true]).2.2.1,
    (polling_single_timer [CtrlEvent.setLive true]).2.2.2 1000 (by decide)⟩

end Dashboard
